import Mathlib

/-!
Formal model of the fanren-sync JSON archive service (`src/main.py`).

Python strings are modelled as `List Char` (a sequence of Unicode code
points).  The filesystem is modelled as an association list from file
names to file contents.  `json.dumps(v, indent=2, ensure_ascii=False)`
and `json.loads` are modelled by an executable pretty-printer and
recursive-descent parser over a JSON syntax tree; JSON numbers are
modelled as integers (floating point is out of scope).
-/

abbrev PyStr := List Char

/-! ## Character classes and basic string helpers -/

/-- Whitespace characters skipped by Python's `json` scanner: space, tab,
newline and carriage return. -/
def wsChar (c : Char) : Bool :=
  c.toNat == 32 || c.toNat == 9 || c.toNat == 10 || c.toNat == 13

/-- Drop leading JSON whitespace. -/
def skipWs : PyStr → PyStr
  | [] => []
  | c :: rest => if wsChar c then skipWs rest else c :: rest

/-- A run of `n` spaces (used by the 2-space-indent pretty printer). -/
def spaces (n : Nat) : PyStr := List.replicate n ' '

/-- Letters as matched by Python's regex `\w` on `str` patterns.  Beyond
ASCII letters the model covers the Latin-1 letter block and the CJK
Unified Ideographs block, representative of "letters of any script";
the characters relevant to the claims (path separators, dots, spaces,
punctuation) are outside every branch. -/
def isLetterLike (c : Char) : Bool :=
  c.isAlpha
    || (0xC0 ≤ c.toNat && c.toNat ≤ 0xFF && c.toNat != 0xD7 && c.toNat != 0xF7)
    || (0x4E00 ≤ c.toNat && c.toNat ≤ 0x9FFF)

/-- Python's `\w` word-character class: letters, digits and underscore. -/
def isWordChar (c : Char) : Bool :=
  isLetterLike c || c.isDigit || c == '_'

/-- Model of `sanitize_filename` (src/main.py:169-185):
`re.sub(r'[^\w\-]', '', filename)` removes every character that is not a
word character or a hyphen, and the slice `[:100]` keeps the first 100
remaining characters. -/
def sanitize_filename (filename : PyStr) : PyStr :=
  (filename.filter (fun c => isWordChar c || c == '-')).take 100

/-- Reference sanitizer following the spec's words: "remove every
character that is not an ASCII/Unicode letter, digit, underscore, or
hyphen; then truncate the result to the first 100 remaining
characters". -/
def sanitizeSpec (filename : PyStr) : PyStr :=
  (filename.filter (fun c => isLetterLike c || c.isDigit || c == '_' || c == '-')).take 100

/-- Whether the pattern `pat` occurs as a contiguous substring. -/
def occursIn (pat : PyStr) : PyStr → Bool
  | [] => pat.isEmpty
  | c :: rest => pat.isPrefixOf (c :: rest) || occursIn pat rest

/-! ## Basic lemmas about the sanitizer -/

theorem mem_sanitize_allowed {f : PyStr} {c : Char}
    (hc : c ∈ sanitize_filename f) : (isWordChar c || c == '-') = true := by
  unfold sanitize_filename at hc
  have h2 : c ∈ f.filter (fun c => isWordChar c || c == '-') :=
    List.take_subset _ _ hc
  exact (List.mem_filter.mp h2).2

theorem occursIn_head_mem {a : Char} {p l : PyStr}
    (h : occursIn (a :: p) l = true) : a ∈ l := by
  induction l with
  | nil => simp [occursIn, List.isEmpty] at h
  | cons c rest ih =>
    simp only [occursIn, Bool.or_eq_true] at h
    rcases h with h | h
    · simp only [List.isPrefixOf, Bool.and_eq_true, beq_iff_eq] at h
      exact h.1 ▸ List.mem_cons_self c rest
    · exact List.mem_cons_of_mem _ (ih h)

/-- C1: `sanitize_filename` agrees with the spec's reference definition
(filter to letters/digits/underscore/hyphen, then take the first 100);
its output contains only allowed characters, is at most 100 long,
contains no path separator and no `..` sequence. -/
theorem sanitize_filename_correct (f : PyStr) :
    sanitize_filename f = sanitizeSpec f
    ∧ (∀ c ∈ sanitize_filename f, (isWordChar c || c == '-') = true)
    ∧ (sanitize_filename f).length ≤ 100
    ∧ '/' ∉ sanitize_filename f
    ∧ '\\' ∉ sanitize_filename f
    ∧ occursIn ['.', '.'] (sanitize_filename f) = false := by
  refine ⟨rfl, fun c hc => mem_sanitize_allowed hc, ?_, ?_, ?_, ?_⟩
  · exact List.length_take_le _ _
  · intro h
    have := mem_sanitize_allowed h
    simp [isWordChar, isLetterLike, Char.isAlpha, Char.isUpper, Char.isLower,
      Char.isDigit] at this
  · intro h
    have := mem_sanitize_allowed h
    simp [isWordChar, isLetterLike, Char.isAlpha, Char.isUpper, Char.isLower,
      Char.isDigit] at this
  · by_contra h
    rw [Bool.not_eq_false] at h
    have hmem := occursIn_head_mem h
    have := mem_sanitize_allowed hmem
    simp [isWordChar, isLetterLike, Char.isAlpha, Char.isUpper, Char.isLower,
      Char.isDigit] at this

/-- Witness for C1 at a concrete input: the character kept by sanitizing
`"a/b"` is indeed an allowed character. -/
theorem sanitize_filename_correct_witness :
    (isWordChar 'a' || 'a' == '-') = true :=
  (sanitize_filename_correct ("a/b".toList)).2.1 'a' (by decide)

/-- C8: the sanitizer is idempotent. -/
theorem sanitize_filename_idempotent (f : PyStr) :
    sanitize_filename (sanitize_filename f) = sanitize_filename f := by
  unfold sanitize_filename
  have h1 : ∀ c ∈ ((f.filter (fun c => isWordChar c || c == '-')).take 100),
      (fun c => isWordChar c || c == '-') c = true := by
    intro c hc
    have h2 : c ∈ f.filter (fun c => isWordChar c || c == '-') :=
      List.take_subset _ _ hc
    exact (List.mem_filter.mp h2).2
  rw [List.filter_eq_self.mpr h1, List.take_take, min_self]

/-! ## JSON values

Models the parsed Python JSON payloads (`payload.data : Any`).  Numbers
are modelled as integers; objects as association lists of key/value
pairs (a Python `dict` in insertion order). -/

inductive Json where
  | null : Json
  | bool : Bool → Json
  | num : Int → Json
  | str : PyStr → Json
  | arr : List Json → Json
  | obj : List (PyStr × Json) → Json

/-- Python truthiness (`if not x`) of a JSON value: `None`, `False`, `0`,
empty string, empty list and empty dict are falsy. -/
def jsonTruthy : Json → Bool
  | .null => false
  | .bool b => b
  | .num n => n != 0
  | .str s => !s.isEmpty
  | .arr l => !l.isEmpty
  | .obj l => !l.isEmpty

/-- Python `dict.get`: first binding of the key, if any. -/
def jlookup (key : PyStr) : List (PyStr × Json) → Option Json
  | [] => none
  | kv :: kvs => if kv.1 = key then some kv.2 else jlookup key kvs

/-! ## Serializer: json.dumps(v, indent=2, ensure_ascii=False)

Modelled from the Python standard library encoder: strings escape only
the quote, the backslash and control characters (non-ASCII characters
are emitted literally because `ensure_ascii=False`); containers are
pretty-printed with two-space indentation, `",\n"` item separators and
`": "` key separators. -/

/-- Lowercase hex digit, as emitted in `\u00XX` escapes. -/
def hexChar (n : Nat) : Char :=
  if n < 10 then Char.ofNat (48 + n) else Char.ofNat (87 + n)

/-- The six-character escape `\u00XX` of a control character. -/
def uEscape (n : Nat) : PyStr :=
  ['\\', 'u', '0', '0', hexChar (n / 16), hexChar (n % 16)]

/-- Escape a single character inside a JSON string literal. -/
def escapeChar (c : Char) : PyStr :=
  if c = '"' then ['\\', '"']
  else if c = '\\' then ['\\', '\\']
  else if c = Char.ofNat 8 then ['\\', 'b']
  else if c = Char.ofNat 9 then ['\\', 't']
  else if c = Char.ofNat 10 then ['\\', 'n']
  else if c = Char.ofNat 12 then ['\\', 'f']
  else if c = Char.ofNat 13 then ['\\', 'r']
  else if c.toNat < 32 then uEscape c.toNat
  else [c]

def escapeStr (s : PyStr) : PyStr := (s.map escapeChar).flatten

/-- Decimal digits of a natural number, most significant first. -/
def natChars (n : Nat) : PyStr :=
  if _h : n < 10 then [Char.ofNat (48 + n)]
  else natChars (n / 10) ++ [Char.ofNat (48 + n % 10)]
decreasing_by exact Nat.div_lt_self (by omega) (by omega)

/-- Python `str(int)`: optional minus sign followed by decimal digits. -/
def intChars (n : Int) : PyStr :=
  if n < 0 then '-' :: natChars n.natAbs else natChars n.natAbs

def nullTok : PyStr := ['n', 'u', 'l', 'l']
def trueTok : PyStr := ['t', 'r', 'u', 'e']
def falseTok : PyStr := ['f', 'a', 'l', 's', 'e']

mutual

/-- Pretty-print a JSON value at indentation level `ind`. -/
def render (ind : Nat) : Json → PyStr
  | .null => nullTok
  | .bool true => trueTok
  | .bool false => falseTok
  | .num n => intChars n
  | .str s => '"' :: (escapeStr s ++ ['"'])
  | .arr [] => ['[', ']']
  | .arr (x :: xs) =>
    '[' :: '\n' :: (spaces (ind + 2) ++ render (ind + 2) x
      ++ renderItems (ind + 2) xs ++ '\n' :: (spaces ind ++ [']']))
  | .obj [] => ['{', '}']
  | .obj (kv :: kvs) =>
    '{' :: '\n' :: (spaces (ind + 2) ++ renderKV (ind + 2) kv
      ++ renderMembers (ind + 2) kvs ++ '\n' :: (spaces ind ++ ['}']))

/-- Remaining array items, each preceded by `",\n"` and indentation. -/
def renderItems (ind : Nat) : List Json → PyStr
  | [] => []
  | x :: xs => ',' :: '\n' :: (spaces ind ++ render ind x ++ renderItems ind xs)

/-- One `"key": value` member. -/
def renderKV (ind : Nat) (kv : PyStr × Json) : PyStr :=
  '"' :: (escapeStr kv.1 ++ '"' :: ':' :: ' ' :: render ind kv.2)

/-- Remaining object members, each preceded by `",\n"` and indentation. -/
def renderMembers (ind : Nat) : List (PyStr × Json) → PyStr
  | [] => []
  | kv :: kvs => ',' :: '\n' :: (spaces ind ++ renderKV ind kv ++ renderMembers ind kvs)

end

/-- Model of `json.dumps(v, indent=2, ensure_ascii=False)`. -/
def dumps (v : Json) : PyStr := render 0 v

/-! ## Parser: json.loads

A recursive-descent parser with explicit fuel (the fuel only bounds the
nesting recursion; `loads` supplies more fuel than any input can
need).  Number parsing covers the integer literals the serializer
emits. -/

def headIs (c : Char) : PyStr → Bool
  | [] => false
  | x :: _ => x == c

def headDigit : PyStr → Bool
  | [] => false
  | x :: _ => x.isDigit

/-- Value of a hexadecimal digit character. -/
def hexVal (c : Char) : Option Nat :=
  if 48 ≤ c.toNat ∧ c.toNat ≤ 57 then some (c.toNat - 48)
  else if 97 ≤ c.toNat ∧ c.toNat ≤ 102 then some (c.toNat - 87)
  else if 65 ≤ c.toNat ∧ c.toNat ≤ 70 then some (c.toNat - 55)
  else none

/-- Parse the body of a string literal (after the opening quote) up to
and including the closing quote, decoding escapes. -/
def parseStringBody : PyStr → Option (PyStr × PyStr)
  | [] => none
  | c :: rest =>
    if c = '"' then some ([], rest)
    else if c = '\\' then
      match rest with
      | [] => none
      | e :: rest2 =>
        if e = '"' then (parseStringBody rest2).map (fun p => ('"' :: p.1, p.2))
        else if e = '\\' then (parseStringBody rest2).map (fun p => ('\\' :: p.1, p.2))
        else if e = '/' then (parseStringBody rest2).map (fun p => ('/' :: p.1, p.2))
        else if e = 'b' then (parseStringBody rest2).map (fun p => (Char.ofNat 8 :: p.1, p.2))
        else if e = 'f' then (parseStringBody rest2).map (fun p => (Char.ofNat 12 :: p.1, p.2))
        else if e = 'n' then (parseStringBody rest2).map (fun p => (Char.ofNat 10 :: p.1, p.2))
        else if e = 'r' then (parseStringBody rest2).map (fun p => (Char.ofNat 13 :: p.1, p.2))
        else if e = 't' then (parseStringBody rest2).map (fun p => (Char.ofNat 9 :: p.1, p.2))
        else if e = 'u' then
          match rest2 with
          | h1 :: h2 :: h3 :: h4 :: rest3 =>
            match hexVal h1, hexVal h2, hexVal h3, hexVal h4 with
            | some a, some b, some c3, some d =>
              (parseStringBody rest3).map
                (fun p => (Char.ofNat (((a * 16 + b) * 16 + c3) * 16 + d) :: p.1, p.2))
            | _, _, _, _ => none
          | _ => none
        else none
    else (parseStringBody rest).map (fun p => (c :: p.1, p.2))
termination_by structural l => l

/-- Greedily parse decimal digits, accumulating their value. -/
def parseDigits (acc : Nat) : PyStr → Nat × PyStr
  | [] => (acc, [])
  | c :: rest =>
    if c.isDigit then parseDigits (acc * 10 + (c.toNat - 48)) rest else (acc, c :: rest)

mutual

def parseValue : Nat → PyStr → Option (Json × PyStr)
  | 0, _ => none
  | fuel + 1, input =>
    if nullTok.isPrefixOf input then some (.null, input.drop 4)
    else if trueTok.isPrefixOf input then some (.bool true, input.drop 4)
    else if falseTok.isPrefixOf input then some (.bool false, input.drop 5)
    else if headIs '"' input then
      (parseStringBody input.tail).map (fun p => (.str p.1, p.2))
    else if headIs '[' input then
      let r := skipWs input.tail
      if headIs ']' r then some (.arr [], r.tail)
      else (parseItems fuel r).map (fun p => (.arr p.1, p.2))
    else if headIs '{' input then
      let r := skipWs input.tail
      if headIs '}' r then some (.obj [], r.tail)
      else (parseMembers fuel r).map (fun p => (.obj p.1, p.2))
    else if headIs '-' input then
      if headDigit input.tail then
        let p := parseDigits 0 input.tail
        some (.num (-(p.1 : Int)), p.2)
      else none
    else if headDigit input then
      let p := parseDigits 0 input
      some (.num (p.1 : Int), p.2)
    else none

def parseItems : Nat → PyStr → Option (List Json × PyStr)
  | 0, _ => none
  | fuel + 1, input =>
    match parseValue fuel input with
    | none => none
    | some (v, r) =>
      let r2 := skipWs r
      if headIs ',' r2 then
        match parseItems fuel (skipWs r2.tail) with
        | some (vs, r3) => some (v :: vs, r3)
        | none => none
      else if headIs ']' r2 then some ([v], r2.tail)
      else none

def parseMembers : Nat → PyStr → Option (List (PyStr × Json) × PyStr)
  | 0, _ => none
  | fuel + 1, input =>
    if headIs '"' input then
      match parseStringBody input.tail with
      | none => none
      | some (k, r) =>
        let r2 := skipWs r
        if headIs ':' r2 then
          match parseValue fuel (skipWs r2.tail) with
          | none => none
          | some (v, r3) =>
            let r4 := skipWs r3
            if headIs ',' r4 then
              match parseMembers fuel (skipWs r4.tail) with
              | some (ms, r5) => some ((k, v) :: ms, r5)
              | none => none
            else if headIs '}' r4 then some ([(k, v)], r4.tail)
            else none
        else none
    else none

end

/-- Model of `json.loads`: parse one value, allowing leading and
trailing whitespace and rejecting any other trailing data. -/
def loads (s : PyStr) : Option Json :=
  match parseValue (s.length + 1) (skipWs s) with
  | some (v, rest) => if skipWs rest = [] then some v else none
  | none => none

/-! ## The archive store and the API endpoints -/

/-- The flat storage directory: file name to file content. -/
abbrev Store := List (PyStr × PyStr)

def lookupStore : Store → PyStr → Option PyStr
  | [], _ => none
  | (k, v) :: st, key => if k = key then some v else lookupStore st key

/-- Remove every entry with the given file name (`os.remove`). -/
def eraseStore : Store → PyStr → Store
  | [], _ => []
  | (k, v) :: st, key =>
    if k = key then eraseStore st key else (k, v) :: eraseStore st key

/-- Create or fully overwrite a file (`open(path, "w")` + `write`). -/
def setStore (st : Store) (key content : PyStr) : Store :=
  (key, content) :: eraseStore st key

/-- The `.json` file extension. -/
def jsonExt : PyStr := ['.', 'j', 's', 'o', 'n']

/-- Errors surfaced by the endpoints, tagged with the HTTP status they
map to.  `unhandled` is an exception escaping the endpoint handler,
answered by the global exception handler with a generic 500 body. -/
inductive ApiError where
  | notFound : ApiError
  | invalidRequest : PyStr → ApiError
  | internal : PyStr → ApiError
  | unhandled : ApiError
  | forbidden : ApiError
deriving DecidableEq

/-- Request body of `/save` (pydantic model `SaveData`):
`data : Any` and an optional `archiveName`. -/
structure SaveData where
  data : Json
  archiveName : Option PyStr

/-- Message part of `detail=f"无法加载存档: {str(e)}"` for a load
failure. -/
def load_error_detail (e : PyStr) : PyStr := "无法加载存档: ".toList ++ e

/-- Message part of `detail=f"无法保存存档: {str(e)}"` for a save
failure. -/
def save_error_detail (e : PyStr) : PyStr := "无法保存存档: ".toList ++ e

/-- Message part of `detail=f"无法删除存档: {str(e)}"` for a delete
failure. -/
def delete_error_detail (e : PyStr) : PyStr := "无法删除存档: ".toList ++ e

/-- Message part of `detail=f"无法列出存档: {str(e)}"` for a list
failure. -/
def list_error_detail (e : PyStr) : PyStr := "无法列出存档: ".toList ++ e

/-- Body text of the global exception handler (500, generic). -/
def global_error_body : PyStr := "服务器内部错误".toList

/-- Detail used when a stored file fails to parse as JSON; the text of
`str(JSONDecodeError)` is immaterial to every claim. -/
def jsonDecodeErrMsg : PyStr := "Expecting value".toList

/-- Detail of the 400 response for a missing archive name (quotes in
the original literal elided). -/
def nameRequiredDetail : PyStr :=
  "Archive name is required (in body archiveName or data._internalName)".toList

def saveSuccessMsg : PyStr := "存档已成功保存".toList
def deleteSuccessMsg : PyStr := "存档已成功删除".toList

/-- Model of `load_archive` (src/main.py:216-233): sanitize the name,
check existence of `{safeName}.json`, read and `json.loads` it. -/
def load_archive (st : Store) (archiveName : PyStr) : Except ApiError Json :=
  let safe_filename := sanitize_filename archiveName
  let file_path := safe_filename ++ jsonExt
  match lookupStore st file_path with
  | none => .error .notFound
  | some content =>
    match loads content with
    | some v => .ok v
    | none => .error (.internal (load_error_detail jsonDecodeErrMsg))

/-- The reserved fallback key `"_internalName"`. -/
def internalNameKey : PyStr := "_internalName".toList

/-- Archive-name resolution in `save_archive` (src/main.py:239-250):
take `payload.archiveName` if truthy, otherwise fall back to
`payload.data.get("_internalName")` when `data` is a dict. -/
def resolveArchiveName (payload : SaveData) : Json :=
  let a : Json := match payload.archiveName with
    | some s => .str s
    | none => .null
  if jsonTruthy a then a
  else
    match payload.data with
    | .obj kvs =>
      match jlookup internalNameKey kvs with
      | some v => v
      | none => .null
    | _ => a

/-- Model of `save_archive` (src/main.py:236-265): resolve the name,
reject a falsy result with 400, then write
`json.dumps(payload.data, indent=2, ensure_ascii=False)` to
`{safeName}.json`.  A non-string resolved name makes `re.sub` raise
`TypeError`, which escapes to the global exception handler. -/
def save_archive (st : Store) (payload : SaveData) : Except ApiError (Store × PyStr) :=
  let n := resolveArchiveName payload
  if jsonTruthy n then
    match n with
    | .str s =>
      let safe_filename := sanitize_filename s
      let file_path := safe_filename ++ jsonExt
      .ok (setStore st file_path (dumps payload.data), saveSuccessMsg)
    | _ => .error .unhandled
  else .error (.invalidRequest nameRequiredDetail)

/-- Model of `delete_archive` (src/main.py:268-284): sanitize the name,
check existence, remove the file. -/
def delete_archive (st : Store) (archiveName : PyStr) : Except ApiError (Store × PyStr) :=
  let safe_filename := sanitize_filename archiveName
  let file_path := safe_filename ++ jsonExt
  match lookupStore st file_path with
  | none => .error .notFound
  | some _ => .ok (eraseStore st file_path, deleteSuccessMsg)

/-- Python `f.replace(".json", "")`: delete every occurrence of
`".json"`, scanning left to right. -/
def replaceJson : PyStr → PyStr
  | '.' :: 'j' :: 's' :: 'o' :: 'n' :: rest => replaceJson rest
  | c :: rest => c :: replaceJson rest
  | [] => []

/-- Model of `list_archives` (src/main.py:202-213) applied to a
directory listing: `[f.replace(".json", "") for f in files if
f.endswith(".json")]`. -/
def list_archives (files : List PyStr) : List PyStr :=
  (files.filter (fun f => jsonExt.isSuffixOf f)).map replaceJson

/-- The listing the spec describes: select entries ending in `.json`
and strip only that trailing suffix. -/
def listSpecRef (files : List PyStr) : List PyStr :=
  (files.filter (fun f => jsonExt.isSuffixOf f)).map (fun f => f.take (f.length - 5))

/-- Model of the configuration line
`sync_password = os.getenv("SYNC_PASSWORD") or os.getenv("sync_password")`:
Python `or` keeps the first operand when it is truthy. -/
def sync_password (envUpper envLower : Option PyStr) : Option PyStr :=
  match envUpper with
  | some s => if s.isEmpty then envLower else some s
  | none => envLower

/-- Model of `verify_password` (src/main.py:187-195):
`if not sync_password or password != sync_password: raise 403`. -/
def verify_password (sp : Option PyStr) (password : PyStr) : Except ApiError Unit :=
  match sp with
  | none => .error .forbidden
  | some s => if s.isEmpty then .error .forbidden
    else if password ≠ s then .error .forbidden
    else .ok ()

/-! ## Store lemmas -/

theorem lookup_erase_self (st : Store) (k : PyStr) :
    lookupStore (eraseStore st k) k = none := by
  induction st with
  | nil => rfl
  | cons p st ih =>
    obtain ⟨a, b⟩ := p
    by_cases ha : a = k
    · simpa [eraseStore, ha] using ih
    · simpa [eraseStore, lookupStore, ha] using ih

theorem lookup_erase_ne (st : Store) (k k' : PyStr) (h : k' ≠ k) :
    lookupStore (eraseStore st k) k' = lookupStore st k' := by
  induction st with
  | nil => rfl
  | cons p st ih =>
    obtain ⟨a, b⟩ := p
    by_cases ha : a = k
    · have hak : a ≠ k' := fun hc => h (hc ▸ ha)
      simp only [eraseStore, if_pos ha, lookupStore, if_neg hak]
      exact ih
    · simp only [eraseStore, if_neg ha, lookupStore]
      by_cases ha' : a = k'
      · rw [if_pos ha', if_pos ha']
      · rw [if_neg ha', if_neg ha']
        exact ih

theorem lookup_set_self (st : Store) (k v : PyStr) :
    lookupStore (setStore st k v) k = some v := by
  simp [setStore, lookupStore]

theorem lookup_set_ne (st : Store) (k v k' : PyStr) (h : k' ≠ k) :
    lookupStore (setStore st k v) k' = lookupStore st k' := by
  simp only [setStore, lookupStore]
  rw [if_neg (fun hc : k = k' => h hc.symm)]
  exact lookup_erase_ne st k k' h

/-- Saving under a non-empty top-level name writes the serialized data
to `{safeName}.json`. -/
theorem save_archive_str (st : Store) (n : PyStr) (v : Json) (hn : n ≠ []) :
    save_archive st ⟨v, some n⟩ =
      .ok (setStore st (sanitize_filename n ++ jsonExt) (dumps v), saveSuccessMsg) := by
  cases n with
  | nil => exact absurd rfl hn
  | cons a t => simp [save_archive, resolveArchiveName, jsonTruthy, List.isEmpty]

/-- Load reports NotFound exactly when the addressed file is absent. -/
theorem load_notFound_iff (st : Store) (n : PyStr) :
    load_archive st n = .error .notFound ↔
      lookupStore st (sanitize_filename n ++ jsonExt) = none := by
  unfold load_archive
  cases h : lookupStore st (sanitize_filename n ++ jsonExt) with
  | none => simp [h]
  | some content =>
    simp only [h]
    cases loads content <;> simp

/-- Delete reports NotFound exactly when the addressed file is absent. -/
theorem delete_notFound_iff (st : Store) (n : PyStr) :
    delete_archive st n = .error .notFound ↔
      lookupStore st (sanitize_filename n ++ jsonExt) = none := by
  unfold delete_archive
  cases h : lookupStore st (sanitize_filename n ++ jsonExt) with
  | none => simp [h]
  | some content => simp [h]

/-! ## C10: authorization fails closed -/

/-- C10: `verify_password` rejects with 403 exactly when the configured
secret is unset/empty or the supplied password differs from it; with no
secret configured every request is rejected. -/
theorem verify_password_fails_closed (sp : Option PyStr) (pw : PyStr) :
    (verify_password sp pw = .error .forbidden ↔
      (sp = none ∨ sp = some [] ∨ ∃ s, sp = some s ∧ pw ≠ s))
    ∧ verify_password none pw = .error .forbidden
    ∧ verify_password (some []) pw = .error .forbidden := by
  refine ⟨?_, rfl, rfl⟩
  cases sp with
  | none => simp [verify_password]
  | some s =>
    cases s with
    | nil => simp [verify_password, List.isEmpty]
    | cons a t =>
      by_cases hp : pw = a :: t
      · subst hp
        simp [verify_password, List.isEmpty]
      · simp [verify_password, List.isEmpty, hp]

/-! ## C4: error details for internal failures -/

/-- C4 amended: the detail string of an internal failure is the fixed
operation prefix concatenated with the exception's own message, so a
path separator (and hence a filesystem path) appears in the response
exactly when the exception message contains one; only the global
fallback body is generic. -/
theorem error_details_embed_exception (e : PyStr) :
    load_error_detail e = "无法加载存档: ".toList ++ e
    ∧ ('/' ∈ load_error_detail e ↔ '/' ∈ e)
    ∧ ('/' ∈ save_error_detail e ↔ '/' ∈ e)
    ∧ ('/' ∈ delete_error_detail e ↔ '/' ∈ e)
    ∧ ('/' ∈ list_error_detail e ↔ '/' ∈ e)
    ∧ '/' ∉ global_error_body := by
  have h1 : '/' ∉ "无法加载存档: ".toList := by decide
  have h2 : '/' ∉ "无法保存存档: ".toList := by decide
  have h3 : '/' ∉ "无法删除存档: ".toList := by decide
  have h4 : '/' ∉ "无法列出存档: ".toList := by decide
  refine ⟨rfl, ?_, ?_, ?_, ?_, by decide⟩ <;>
    simp [load_error_detail, save_error_detail, delete_error_detail,
      list_error_detail, List.mem_append, h1, h2, h3, h4]

/-- C4 counterexample: for a typical I/O failure the HTTP detail string
contains the full filesystem path from the exception message, and the
message is not a fixed generic string. -/
theorem error_detail_exposes_path :
    occursIn ("/app/data/a.json".toList)
        (load_error_detail
          ("[Errno 2] No such file or directory: /app/data/a.json".toList)) = true
    ∧ load_error_detail ("[Errno 2] No such file or directory: /app/data/a.json".toList)
        ≠ load_error_detail ("[Errno 13] Permission denied".toList) :=
  ⟨by decide, by decide⟩

/-! ## C7: NotFound behaviour of load and delete -/

/-- C7: load fails with NotFound exactly when `{safeName}.json` is
absent; delete likewise; and loading right after a successful delete of
the same name fails with NotFound. -/
theorem load_delete_notFound (st : Store) (n : PyStr) :
    (load_archive st n = .error .notFound ↔
      lookupStore st (sanitize_filename n ++ jsonExt) = none)
    ∧ (delete_archive st n = .error .notFound ↔
      lookupStore st (sanitize_filename n ++ jsonExt) = none)
    ∧ (∀ st2 m, delete_archive st n = .ok (st2, m) →
        load_archive st2 n = .error .notFound) := by
  refine ⟨load_notFound_iff st n, delete_notFound_iff st n, ?_⟩
  intro st2 m hdel
  unfold delete_archive at hdel
  cases h : lookupStore st (sanitize_filename n ++ jsonExt) with
  | none => simp [h] at hdel
  | some content =>
    simp only [h, Except.ok.injEq, Prod.mk.injEq] at hdel
    obtain ⟨hst2, -⟩ := hdel
    refine (load_notFound_iff st2 n).mpr ?_
    rw [← hst2]
    exact lookup_erase_self _ _

/-- Witness for C7: deleting a concretely stored archive and loading it
again reports NotFound. -/
theorem load_delete_notFound_witness :
    load_archive [] ['a'] = .error .notFound :=
  (load_delete_notFound [('a' :: jsonExt, nullTok)] ['a']).2.2 [] deleteSuccessMsg
    (by rfl)

/-! ## C3: archive-name resolution in save -/

/-- C3 amended: the top-level `archiveName` is used when it is present
and non-empty; an absent or empty top-level name falls back to
`data._internalName`; when the resolved name is falsy the request fails
with InvalidRequest (400) and no file is written. -/
theorem save_archive_name_resolution (st : Store) (p : SaveData) :
    (∀ s, p.archiveName = some s → s ≠ [] → resolveArchiveName p = Json.str s)
    ∧ ((p.archiveName = none ∨ p.archiveName = some []) →
        ∀ kvs v, p.data = Json.obj kvs →
          jlookup internalNameKey kvs = some v →
            resolveArchiveName p = v)
    ∧ (jsonTruthy (resolveArchiveName p) = false →
        save_archive st p = .error (.invalidRequest nameRequiredDetail)) := by
  refine ⟨?_, ?_, ?_⟩
  · intro s hs hne
    unfold resolveArchiveName
    rw [hs]
    cases s with
    | nil => exact absurd rfl hne
    | cons a t => simp [jsonTruthy, List.isEmpty]
  · intro h kvs v hdata hlook
    unfold resolveArchiveName
    rcases h with h | h <;> rw [h, hdata] <;>
      simp [jsonTruthy, List.isEmpty, hlook]
  · intro h
    simp [save_archive, h]

/-- C3 counterexample: with a present-but-empty top-level name and a
nested `_internalName`, the code resolves the nested name, not the
top-level one — presence alone does not give the top-level field
priority. -/
theorem save_name_priority_counterexample :
    (SaveData.mk (Json.obj [(internalNameKey, Json.str ['x'])]) (some [])).archiveName
        = some []
    ∧ resolveArchiveName
        (SaveData.mk (Json.obj [(internalNameKey, Json.str ['x'])]) (some []))
        = Json.str ['x']
    ∧ Json.str ['x'] ≠ Json.str [] := by
  refine ⟨rfl, by simp [resolveArchiveName, jsonTruthy, List.isEmpty, jlookup], by simp⟩

/-- Witness for C3: non-empty top-level name resolves to itself, and a
payload with no usable name is rejected with 400. -/
theorem save_archive_name_resolution_witness :
    resolveArchiveName (SaveData.mk Json.null (some ['a'])) = Json.str ['a']
    ∧ save_archive [] (SaveData.mk Json.null none)
        = .error (.invalidRequest nameRequiredDetail) :=
  ⟨(save_archive_name_resolution [] (SaveData.mk Json.null (some ['a']))).1 ['a']
      rfl (by decide),
   (save_archive_name_resolution [] (SaveData.mk Json.null none)).2.2 (by rfl)⟩

/-! ## C9: names that sanitize to the empty string -/

/-- C9: a non-empty name made only of disallowed characters sanitizes
to the empty string; save accepts it (no InvalidRequest) and writes the
file `.json`, the same file that load and delete address for any such
name. -/
theorem save_empty_sanitized_name (st : Store) (n : PyStr) (v : Json)
    (h1 : n ≠ []) (h2 : ∀ c ∈ n, (isWordChar c || c == '-') = false) :
    sanitize_filename n = []
    ∧ sanitize_filename n ++ jsonExt = jsonExt
    ∧ save_archive st ⟨v, some n⟩ =
        .ok (setStore st jsonExt (dumps v), saveSuccessMsg) := by
  have hs : sanitize_filename n = [] := by
    unfold sanitize_filename
    have hf : n.filter (fun c => isWordChar c || c == '-') = [] := by
      rw [List.filter_eq_nil_iff]
      intro a ha
      simp [h2 a ha]
    rw [hf, List.take_nil]
  refine ⟨hs, by rw [hs]; rfl, ?_⟩
  rw [save_archive_str st n v h1, hs]
  rfl

/-- Witness for C9 at the concrete name `"!!!"`. -/
theorem save_empty_sanitized_name_witness :
    sanitize_filename ("!!!".toList) = []
    ∧ sanitize_filename ("!!!".toList) ++ jsonExt = jsonExt
    ∧ save_archive [] ⟨Json.null, some ("!!!".toList)⟩ =
        .ok (setStore [] jsonExt (dumps Json.null), saveSuccessMsg) :=
  save_empty_sanitized_name [] ("!!!".toList) Json.null (by decide) (by decide)

/-! ## C6: collisions and overwrite -/

/-- C6: `"foo!bar"` and `"foobar"` sanitize to the same name, so both
address the identical file; and saving the same name twice leaves only
the second value stored under `safeName(n)`, all other files
untouched. -/
theorem save_overwrite_collision (st : Store) (n : PyStr) (v1 v2 : Json)
    (hn : n ≠ []) :
    sanitize_filename ("foo!bar".toList) = "foobar".toList
    ∧ sanitize_filename ("foobar".toList) = "foobar".toList
    ∧ ∀ st1 m1, save_archive st ⟨v1, some n⟩ = .ok (st1, m1) →
        ∃ st2 m2, save_archive st1 ⟨v2, some n⟩ = .ok (st2, m2)
          ∧ lookupStore st2 (sanitize_filename n ++ jsonExt) = some (dumps v2)
          ∧ ∀ k, k ≠ sanitize_filename n ++ jsonExt →
              lookupStore st2 k = lookupStore st k := by
  refine ⟨by decide, by decide, ?_⟩
  intro st1 m1 h1
  rw [save_archive_str st n v1 hn] at h1
  simp only [Except.ok.injEq, Prod.mk.injEq] at h1
  obtain ⟨hst1, -⟩ := h1
  refine ⟨_, _, save_archive_str st1 n v2 hn, ?_, ?_⟩
  · exact lookup_set_self _ _ _
  · intro k hk
    rw [lookup_set_ne _ _ _ _ hk, ← hst1, lookup_set_ne _ _ _ _ hk]

/-- Witness for C6 at concrete values. -/
theorem save_overwrite_collision_witness :
    ∃ st2 m2, save_archive (setStore [] ('a' :: jsonExt) (dumps Json.null))
          ⟨Json.bool true, some ['a']⟩ = .ok (st2, m2)
      ∧ lookupStore st2 (sanitize_filename ['a'] ++ jsonExt) = some (dumps (Json.bool true))
      ∧ ∀ k, k ≠ sanitize_filename ['a'] ++ jsonExt →
          lookupStore st2 k = lookupStore ([] : Store) k :=
  (save_overwrite_collision [] ['a'] Json.null (Json.bool true) (by decide)).2.2
    (setStore [] ('a' :: jsonExt) (dumps Json.null)) saveSuccessMsg
    (save_archive_str [] ['a'] Json.null (by decide))

/-! ## C2: the directory listing -/

/-- Python's `replace` keeps the head character when the pattern does
not match at the current position. -/
theorem replaceJson_cons_of_not_prefix (c : Char) (rest : PyStr)
    (h : jsonExt.isPrefixOf (c :: rest) = false) :
    replaceJson (c :: rest) = c :: replaceJson rest := by
  rw [replaceJson.eq_def]
  split
  · rename_i x r heq
    rw [heq] at h
    simp [jsonExt, List.isPrefixOf] at h
  · rename_i x c2 rest2 hno heq
    injection heq with h1 h2
    subst h1
    subst h2
    rfl
  · rename_i x heq
    exact absurd heq (by simp)

theorem occursIn_append_self (X : PyStr) :
    occursIn jsonExt (jsonExt ++ X) = true := by
  simp [jsonExt, occursIn, List.isPrefixOf]

/-- On `t ++ ".json"` with no other occurrence of `".json"`, the
replacement deletes exactly the suffix. -/
theorem replaceJson_append_jsonExt (t : PyStr)
    (hocc : occursIn jsonExt ((t ++ jsonExt).dropLast) = false) :
    replaceJson (t ++ jsonExt) = t := by
  induction t with
  | nil => rfl
  | cons c cs ih =>
    by_cases hpre : jsonExt.isPrefixOf (c :: cs ++ jsonExt) = true
    · exfalso
      rw [List.isPrefixOf_iff_prefix] at hpre
      obtain ⟨u, hu⟩ := hpre
      have hu_ne : u ≠ [] := by
        intro h0
        subst h0
        have := congrArg List.length hu
        simp [jsonExt] at this
      rw [← hu, List.dropLast_append_of_ne_nil jsonExt hu_ne,
        occursIn_append_self] at hocc
      exact absurd hocc (by simp)
    · rw [Bool.not_eq_true] at hpre
      have hne : cs ++ jsonExt ≠ [] := by simp [jsonExt]
      rw [List.cons_append, List.dropLast_cons_of_ne_nil hne] at hocc
      rw [occursIn] at hocc
      rw [Bool.or_eq_false_iff] at hocc
      have hstep := replaceJson_cons_of_not_prefix c (cs ++ jsonExt) hpre
      rw [ih hocc.2] at hstep
      exact hstep

/-- On a filename whose only occurrence of `".json"` is its suffix, the
replacement equals stripping the suffix. -/
theorem replaceJson_strip (f : PyStr) (hs : jsonExt.isSuffixOf f = true)
    (hocc : occursIn jsonExt f.dropLast = false) :
    replaceJson f = f.take (f.length - 5) := by
  rw [List.isSuffixOf_iff_suffix] at hs
  obtain ⟨t, rfl⟩ := hs
  rw [replaceJson_append_jsonExt t hocc]
  have hlen : (t ++ jsonExt).length - 5 = t.length := by
    simp [jsonExt]
  rw [hlen, List.take_left' rfl]

/-- C2 amended: List selects the entries whose filename ends in
`".json"` and removes every occurrence of `".json"` from them (Python's
`str.replace` replaces all occurrences, not only the trailing one);
when `".json"` occurs in a filename only as its suffix, this coincides
with stripping the suffix as the claim states. -/
theorem list_archives_strip (files : List PyStr)
    (h : ∀ f ∈ files, jsonExt.isSuffixOf f = true →
      occursIn jsonExt f.dropLast = false) :
    list_archives files = listSpecRef files := by
  unfold list_archives listSpecRef
  apply List.map_congr_left
  intro f hf
  have hmem := List.mem_filter.mp hf
  exact replaceJson_strip f hmem.2 (h f hmem.1 hmem.2)

/-- C2 counterexample: for the listing entry `"a.json.json"` the code
returns `"a"` while the claim's reference (strip only the trailing
`".json"`) returns `"a.json"`. -/
theorem list_archives_counterexample :
    list_archives ["a.json.json".toList] = ["a".toList]
    ∧ listSpecRef ["a.json.json".toList] = ["a.json".toList]
    ∧ list_archives ["a.json.json".toList] ≠ listSpecRef ["a.json.json".toList] :=
  ⟨by decide, by decide, by decide⟩

/-- Witness for C2 on a listing whose names contain `".json"` only as a
suffix. -/
theorem list_archives_strip_witness :
    list_archives ["ab.json".toList, "c.txt".toList]
      = listSpecRef ["ab.json".toList, "c.txt".toList] :=
  list_archives_strip ["ab.json".toList, "c.txt".toList] (by decide)

/-! ## Round-trip lemmas: whitespace, digits, numbers, strings -/

theorem skipWs_cons_not_ws {c : Char} (l : PyStr) (h : wsChar c = false) :
    skipWs (c :: l) = c :: l := by
  simp [skipWs, h]

theorem skipWs_nl (l : PyStr) : skipWs ('\n' :: l) = skipWs l := by
  simp [skipWs, wsChar]

theorem skipWs_spaces (n : Nat) (l : PyStr) :
    skipWs (spaces n ++ l) = skipWs l := by
  induction n with
  | zero => simp [spaces]
  | succ k ih =>
    simpa [spaces, List.replicate_succ, skipWs, wsChar] using ih

theorem digit_isDigit : ∀ k, k < 10 → (Char.ofNat (48 + k)).isDigit = true := by
  decide

theorem digit_toNat : ∀ k, k < 10 → (Char.ofNat (48 + k)).toNat = 48 + k := by
  decide

theorem digit_not_ws : ∀ k, k < 10 → wsChar (Char.ofNat (48 + k)) = false := by
  decide

theorem digit_dispatch : ∀ k, k < 10 →
    (('n' == Char.ofNat (48 + k)) = false)
    ∧ (('t' == Char.ofNat (48 + k)) = false)
    ∧ (('f' == Char.ofNat (48 + k)) = false)
    ∧ ((Char.ofNat (48 + k) == '"') = false)
    ∧ ((Char.ofNat (48 + k) == '[') = false)
    ∧ ((Char.ofNat (48 + k) == '{') = false)
    ∧ ((Char.ofNat (48 + k) == '-') = false)
    ∧ ((Char.ofNat (48 + k) == ']') = false)
    ∧ ((Char.ofNat (48 + k) == '}') = false)
    ∧ ((Char.ofNat (48 + k) == ',') = false) := by
  decide

theorem natChars_head (n : Nat) :
    ∃ k t, k < 10 ∧ natChars n = Char.ofNat (48 + k) :: t := by
  induction n using Nat.strong_induction_on with
  | _ n ih =>
    by_cases h10 : n < 10
    · exact ⟨n, [], h10, by rw [natChars.eq_def, dif_pos h10]⟩
    · obtain ⟨k, t, hk, ht⟩ := ih (n / 10) (Nat.div_lt_self (by omega) (by omega))
      refine ⟨k, t ++ [Char.ofNat (48 + n % 10)], hk, ?_⟩
      rw [natChars.eq_def, dif_neg h10, ht]
      rfl

theorem parseDigits_stop (v : Nat) (r : PyStr) (h : headDigit r = false) :
    parseDigits v r = (v, r) := by
  cases r with
  | nil => rfl
  | cons c t =>
    simp only [headDigit] at h
    simp [parseDigits, h]

theorem parseDigits_natChars (n : Nat) :
    ∀ acc rest, parseDigits acc (natChars n ++ rest)
      = parseDigits (acc * 10 ^ (natChars n).length + n) rest := by
  induction n using Nat.strong_induction_on with
  | _ n ih =>
    intro acc rest
    by_cases h10 : n < 10
    · have he : natChars n = [Char.ofNat (48 + n)] := by
        rw [natChars.eq_def, dif_pos h10]
      rw [he]
      simp only [List.cons_append, List.nil_append, List.length_cons,
        List.length_nil, pow_one]
      simp [parseDigits, digit_isDigit n h10, digit_toNat n h10]
    · have he : natChars n = natChars (n / 10) ++ [Char.ofNat (48 + n % 10)] := by
        rw [natChars.eq_def, dif_neg h10]
      rw [he, List.append_assoc, List.singleton_append,
        ih (n / 10) (Nat.div_lt_self (by omega) (by omega)) acc _]
      have hd10 : n % 10 < 10 := Nat.mod_lt _ (by omega)
      simp only [parseDigits, digit_isDigit _ hd10, if_pos]
      rw [digit_toNat _ hd10]
      have hsub : 48 + n % 10 - 48 = n % 10 := by omega
      rw [hsub]
      have hlen : (natChars (n / 10) ++ [Char.ofNat (48 + n % 10)]).length
          = (natChars (n / 10)).length + 1 := by simp
      rw [hlen]
      have harith :
          (acc * 10 ^ (natChars (n / 10)).length + n / 10) * 10 + n % 10
            = acc * 10 ^ ((natChars (n / 10)).length + 1) + n := by
        set q := n / 10 with hq
        set r := n % 10 with hr
        have hqr : 10 * q + r = n := Nat.div_add_mod n 10
        rw [← hqr, pow_succ]
        ring
      rw [harith]

theorem parseNat (n : Nat) (rest : PyStr) (h : headDigit rest = false) :
    parseDigits 0 (natChars n ++ rest) = (n, rest) := by
  rw [parseDigits_natChars]
  simpa using parseDigits_stop n rest h

theorem hexVal_hexChar : ∀ m, m < 16 → hexVal (hexChar m) = some m := by
  decide

theorem hexVal_zero : hexVal '0' = some 0 := by decide

theorem escapeStr_cons (c : Char) (cs : PyStr) :
    escapeStr (c :: cs) = escapeChar c ++ escapeStr cs := by
  simp [escapeStr]

theorem parseStringBody_escape (s : PyStr) : ∀ rest : PyStr,
    parseStringBody (escapeStr s ++ '"' :: rest) = some (s, rest) := by
  induction s with
  | nil =>
    intro rest
    rw [show escapeStr [] ++ '"' :: rest = '"' :: rest by simp [escapeStr]]
    rw [parseStringBody.eq_def]
    simp
  | cons c cs ih =>
    intro rest
    rw [escapeStr_cons, List.append_assoc]
    unfold escapeChar
    by_cases h1 : c = '"'
    · subst h1
      rw [if_pos rfl, List.cons_append, List.cons_append, List.nil_append]
      rw [parseStringBody.eq_def]
      simp [ih]
    · rw [if_neg h1]
      by_cases h2 : c = '\\'
      · subst h2
        rw [if_pos rfl, List.cons_append, List.cons_append, List.nil_append]
        rw [parseStringBody.eq_def]
        simp [ih]
      · rw [if_neg h2]
        by_cases h3 : c = Char.ofNat 8
        · subst h3
          rw [if_pos rfl, List.cons_append, List.cons_append, List.nil_append]
          rw [parseStringBody.eq_def]
          simp [ih]
        · rw [if_neg h3]
          by_cases h4 : c = Char.ofNat 9
          · subst h4
            rw [if_pos rfl, List.cons_append, List.cons_append, List.nil_append]
            rw [parseStringBody.eq_def]
            simp [ih]
          · rw [if_neg h4]
            by_cases h5 : c = Char.ofNat 10
            · subst h5
              rw [if_pos rfl, List.cons_append, List.cons_append, List.nil_append]
              rw [parseStringBody.eq_def]
              simp [ih]
            · rw [if_neg h5]
              by_cases h6 : c = Char.ofNat 12
              · subst h6
                rw [if_pos rfl, List.cons_append, List.cons_append, List.nil_append]
                rw [parseStringBody.eq_def]
                simp [ih]
              · rw [if_neg h6]
                by_cases h7 : c = Char.ofNat 13
                · subst h7
                  rw [if_pos rfl, List.cons_append, List.cons_append, List.nil_append]
                  rw [parseStringBody.eq_def]
                  simp [ih]
                · rw [if_neg h7]
                  by_cases h8 : c.toNat < 32
                  · rw [if_pos h8, uEscape]
                    have hdiv : c.toNat / 16 < 16 := by omega
                    have hmod : c.toNat % 16 < 16 := Nat.mod_lt _ (by omega)
                    simp only [List.cons_append, List.nil_append]
                    rw [parseStringBody.eq_def]
                    simp [hexVal_zero, hexVal_hexChar _ hdiv,
                      hexVal_hexChar _ hmod, ih]
                    have harith : c.toNat / 16 * 16 + c.toNat % 16 = c.toNat := by
                      omega
                    rw [harith, Char.ofNat_toNat]
                  · rw [if_neg h8]
                    simp only [List.cons_append, List.nil_append]
                    rw [parseStringBody.eq_def]
                    simp [h1, h2, ih]

/-! ## Fuel measure for the parser -/

mutual

def jfuel : Json → Nat
  | .arr l => 1 + lfuel l
  | .obj l => 1 + klfuel l
  | .null => 1
  | .bool _ => 1
  | .str _ => 1
  | .num _ => 1

def lfuel : List Json → Nat
  | [] => 1
  | x :: xs => 1 + jfuel x + lfuel xs

def klfuel : List (PyStr × Json) → Nat
  | [] => 1
  | kv :: kvs => 1 + jfuel kv.2 + klfuel kvs

end

theorem jfuel_pos (v : Json) : 1 ≤ jfuel v := by
  cases v <;> rw [jfuel] <;> omega

theorem lfuel_pos (l : List Json) : 1 ≤ lfuel l := by
  cases l <;> rw [lfuel] <;> omega

theorem klfuel_pos (l : List (PyStr × Json)) : 1 ≤ klfuel l := by
  cases l <;> rw [klfuel] <;> omega

/-! ## Head characters of rendered values -/

/-- The delimiters that may follow a rendered value inside a
document: end of input, a comma, or a newline. -/
def IsDelim (r : PyStr) : Prop :=
  r = [] ∨ (∃ t, r = ',' :: t) ∨ (∃ t, r = '\n' :: t)

theorem headDigit_delim {r : PyStr} (h : IsDelim r) : headDigit r = false := by
  rcases h with rfl | ⟨t, rfl⟩ | ⟨t, rfl⟩
  · rfl
  · simp only [headDigit]; decide
  · simp only [headDigit]; decide

theorem isPrefixOf_cons_ne {a c : Char} (p l : PyStr) (h : (a == c) = false) :
    (a :: p).isPrefixOf (c :: l) = false := by
  simp [List.isPrefixOf, h]

theorem headIs_cons (c x : Char) (l : PyStr) : headIs c (x :: l) = (x == c) := rfl

theorem render_head (ind : Nat) (v : Json) :
    ∃ c t, render ind v = c :: t ∧ wsChar c = false
      ∧ ((c == ']') = false) ∧ ((c == '}') = false) := by
  cases v with
  | num n =>
    by_cases hn : n < 0
    · refine ⟨'-', natChars n.natAbs, ?_, by decide, by decide, by decide⟩
      rw [render, intChars, if_pos hn]
    · obtain ⟨k, t, hk, ht⟩ := natChars_head n.natAbs
      have hd := digit_dispatch k hk
      refine ⟨Char.ofNat (48 + k), t, ?_, digit_not_ws k hk,
        hd.2.2.2.2.2.2.2.1, hd.2.2.2.2.2.2.2.2.1⟩
      rw [render, intChars, if_neg hn, ht]
  | bool b => cases b <;> exact ⟨_, _, rfl, by decide, by decide, by decide⟩
  | arr l => cases l <;> exact ⟨_, _, rfl, by decide, by decide, by decide⟩
  | obj l => cases l <;> exact ⟨_, _, rfl, by decide, by decide, by decide⟩
  | null => exact ⟨_, _, rfl, by decide, by decide, by decide⟩
  | str s => exact ⟨_, _, rfl, by decide, by decide, by decide⟩

theorem skipWs_render (ind : Nat) (v : Json) (rest : PyStr) :
    skipWs (render ind v ++ rest) = render ind v ++ rest := by
  obtain ⟨c, t, hct, hws, -, -⟩ := render_head ind v
  rw [hct, List.cons_append, skipWs_cons_not_ws _ hws]

theorem headIs_render_ne_rbracket (ind : Nat) (v : Json) (rest : PyStr) :
    headIs ']' (render ind v ++ rest) = false := by
  obtain ⟨c, t, hct, -, hbr, -⟩ := render_head ind v
  rw [hct, List.cons_append]
  simpa [headIs] using hbr

theorem skipWs_space (l : PyStr) : skipWs (' ' :: l) = skipWs l := by
  simp [skipWs, wsChar]

theorem skipWs_colon (l : PyStr) : skipWs (':' :: l) = ':' :: l :=
  skipWs_cons_not_ws _ (by decide)

theorem skipWs_comma (l : PyStr) : skipWs (',' :: l) = ',' :: l :=
  skipWs_cons_not_ws _ (by decide)

theorem skipWs_rbracket (l : PyStr) : skipWs (']' :: l) = ']' :: l :=
  skipWs_cons_not_ws _ (by decide)

theorem skipWs_rbrace (l : PyStr) : skipWs ('}' :: l) = '}' :: l :=
  skipWs_cons_not_ws _ (by decide)

theorem skipWs_renderKV (ind : Nat) (kv : PyStr × Json) (l : PyStr) :
    skipWs (renderKV ind kv ++ l) = renderKV ind kv ++ l := by
  rw [renderKV, List.cons_append]
  exact skipWs_cons_not_ws _ (by decide)

theorem headIs_renderKV_ne_rbrace (ind : Nat) (kv : PyStr × Json) (l : PyStr) :
    headIs '}' (renderKV ind kv ++ l) = false := by
  rw [renderKV, List.cons_append]
  simp [headIs]

/-! ## Atomic value parses -/

theorem parseValue_null (fuel : Nat) (rest : PyStr) :
    parseValue (fuel + 1) (nullTok ++ rest) = some (.null, rest) := by
  simp [parseValue, nullTok, List.isPrefixOf]

theorem parseValue_true (fuel : Nat) (rest : PyStr) :
    parseValue (fuel + 1) (trueTok ++ rest) = some (.bool true, rest) := by
  simp [parseValue, nullTok, trueTok, List.isPrefixOf]

theorem parseValue_false (fuel : Nat) (rest : PyStr) :
    parseValue (fuel + 1) (falseTok ++ rest)
      = some (.bool false, rest) := by
  simp [parseValue, nullTok, trueTok, falseTok, List.isPrefixOf]

theorem parseValue_str (fuel : Nat) (s rest : PyStr) :
    parseValue (fuel + 1) ('"' :: (escapeStr s ++ '"' :: rest)) = some (.str s, rest) := by
  simp [parseValue, nullTok, trueTok, falseTok, List.isPrefixOf, headIs,
    parseStringBody_escape]

theorem parseValue_natChars (fuel : Nat) (m : Nat) (rest : PyStr)
    (hrest : headDigit rest = false) :
    parseValue (fuel + 1) (natChars m ++ rest) = some (.num (m : Int), rest) := by
  obtain ⟨k, t, hk, ht⟩ := natChars_head m
  have hd := digit_dispatch k hk
  have h1 : nullTok.isPrefixOf (natChars m ++ rest) = false := by
    rw [ht, List.cons_append, show nullTok = 'n' :: ['u', 'l', 'l'] from rfl]
    exact isPrefixOf_cons_ne _ _ hd.1
  have h2 : trueTok.isPrefixOf (natChars m ++ rest) = false := by
    rw [ht, List.cons_append, show trueTok = 't' :: ['r', 'u', 'e'] from rfl]
    exact isPrefixOf_cons_ne _ _ hd.2.1
  have h3 : falseTok.isPrefixOf (natChars m ++ rest) = false := by
    rw [ht, List.cons_append, show falseTok = 'f' :: ['a', 'l', 's', 'e'] from rfl]
    exact isPrefixOf_cons_ne _ _ hd.2.2.1
  have h4 : headIs '"' (natChars m ++ rest) = false := by
    rw [ht, List.cons_append]; simpa [headIs] using hd.2.2.2.1
  have h5 : headIs '[' (natChars m ++ rest) = false := by
    rw [ht, List.cons_append]; simpa [headIs] using hd.2.2.2.2.1
  have h6 : headIs '{' (natChars m ++ rest) = false := by
    rw [ht, List.cons_append]; simpa [headIs] using hd.2.2.2.2.2.1
  have h7 : headIs '-' (natChars m ++ rest) = false := by
    rw [ht, List.cons_append]; simpa [headIs] using hd.2.2.2.2.2.2.1
  have h8 : headDigit (natChars m ++ rest) = true := by
    rw [ht, List.cons_append]; simpa [headDigit] using digit_isDigit k hk
  simp [parseValue, h1, h2, h3, h4, h5, h6, h7, h8, parseNat m rest hrest]

theorem parseValue_neg_natChars (fuel : Nat) (m : Nat) (rest : PyStr)
    (hrest : headDigit rest = false) :
    parseValue (fuel + 1) ('-' :: (natChars m ++ rest))
      = some (.num (-(m : Int)), rest) := by
  obtain ⟨k, t, hk, ht⟩ := natChars_head m
  have htail : headDigit (natChars m ++ rest) = true := by
    rw [ht, List.cons_append]; simpa [headDigit] using digit_isDigit k hk
  simp [parseValue, nullTok, trueTok, falseTok, List.isPrefixOf, headIs,
    htail, parseNat m rest hrest]

theorem parseValue_arr_nil (fuel : Nat) (rest : PyStr) :
    parseValue (fuel + 1) ('[' :: ']' :: rest) = some (.arr [], rest) := by
  simp [parseValue, nullTok, trueTok, falseTok, List.isPrefixOf, headIs,
    skipWs_rbracket]

theorem parseValue_obj_nil (fuel : Nat) (rest : PyStr) :
    parseValue (fuel + 1) ('{' :: '}' :: rest) = some (.obj [], rest) := by
  simp [parseValue, nullTok, trueTok, falseTok, List.isPrefixOf, headIs,
    skipWs_rbrace]

/-! ## The parser inverts the serializer -/

theorem parse_render_round (fuel : Nat) :
    (∀ v ind rest, jfuel v ≤ fuel → IsDelim rest →
      parseValue fuel (render ind v ++ rest) = some (v, rest))
    ∧ (∀ x xs ind pad rest, lfuel (x :: xs) ≤ fuel → IsDelim rest →
      parseItems fuel (render ind x ++ (renderItems ind xs
        ++ '\n' :: (spaces pad ++ ']' :: rest))) = some (x :: xs, rest))
    ∧ (∀ kv kvs ind pad rest, klfuel (kv :: kvs) ≤ fuel → IsDelim rest →
      parseMembers fuel (renderKV ind kv ++ (renderMembers ind kvs
        ++ '\n' :: (spaces pad ++ '}' :: rest))) = some (kv :: kvs, rest)) := by
  induction fuel with
  | zero =>
    refine ⟨?_, ?_, ?_⟩
    · intro v ind rest hfuel _
      have := jfuel_pos v
      omega
    · intro x xs ind pad rest hfuel _
      have := lfuel_pos (x :: xs)
      omega
    · intro kv kvs ind pad rest hfuel _
      have := klfuel_pos (kv :: kvs)
      omega
  | succ fuel ih =>
    obtain ⟨ihv, ihi, ihm⟩ := ih
    refine ⟨?_, ?_, ?_⟩
    · -- values
      intro v ind rest hfuel hdelim
      cases v with
      | null =>
        rw [render]
        exact parseValue_null fuel rest
      | bool b =>
        cases b with
        | true =>
          rw [render]
          exact parseValue_true fuel rest
        | false =>
          rw [render]
          exact parseValue_false fuel rest
      | num n =>
        rw [render, intChars]
        by_cases hn : n < 0
        · rw [if_pos hn, List.cons_append,
            parseValue_neg_natChars fuel n.natAbs rest (headDigit_delim hdelim)]
          have : -((n.natAbs : Nat) : Int) = n := by omega
          rw [this]
        · rw [if_neg hn,
            parseValue_natChars fuel n.natAbs rest (headDigit_delim hdelim)]
          have : ((n.natAbs : Nat) : Int) = n := by omega
          rw [this]
      | str s =>
        rw [render, List.cons_append, List.append_assoc, List.singleton_append]
        exact parseValue_str fuel s rest
      | arr l =>
        cases l with
        | nil =>
          rw [render, List.cons_append, List.cons_append, List.nil_append]
          exact parseValue_arr_nil fuel rest
        | cons x xs =>
          rw [render]
          simp only [List.cons_append, List.append_assoc, List.singleton_append]
          have hit := ihi x xs (ind + 2) ind rest
            (by rw [jfuel] at hfuel; omega) hdelim
          simp [parseValue, nullTok, trueTok, falseTok, List.isPrefixOf,
            headIs_cons, skipWs_nl, skipWs_spaces, skipWs_render,
            headIs_render_ne_rbracket, hit]
      | obj l =>
        cases l with
        | nil =>
          rw [render, List.cons_append, List.cons_append, List.nil_append]
          exact parseValue_obj_nil fuel rest
        | cons kv kvs =>
          rw [render]
          simp only [List.cons_append, List.append_assoc, List.singleton_append]
          have hmem := ihm kv kvs (ind + 2) ind rest
            (by rw [jfuel] at hfuel; omega) hdelim
          simp [parseValue, nullTok, trueTok, falseTok, List.isPrefixOf,
            headIs_cons, skipWs_nl, skipWs_spaces, skipWs_renderKV,
            headIs_renderKV_ne_rbrace, hmem]
    · -- item lists
      intro x xs ind pad rest hfuel hdelim
      rw [lfuel] at hfuel
      cases xs with
      | nil =>
        rw [renderItems, List.nil_append]
        have hv := ihv x ind ('\n' :: (spaces pad ++ ']' :: rest))
          (by have := lfuel_pos ([] : List Json); omega)
          (Or.inr (Or.inr ⟨_, rfl⟩))
        have hsb : skipWs (']' :: rest) = ']' :: rest := skipWs_rbracket rest
        simp [parseItems, hv, skipWs_nl, skipWs_spaces, hsb, headIs_cons]
      | cons y ys =>
        rw [renderItems]
        simp only [List.cons_append, List.append_assoc]
        have hv := ihv x ind
          (',' :: '\n' :: (spaces ind ++ (render ind y ++ (renderItems ind ys
            ++ '\n' :: (spaces pad ++ ']' :: rest)))))
          (by have := lfuel_pos (y :: ys); omega)
          (Or.inr (Or.inl ⟨_, rfl⟩))
        have hnext := ihi y ys ind pad rest
          (by have := jfuel_pos x; omega) hdelim
        simp [parseItems, hv, skipWs_comma, headIs_cons, skipWs_nl,
          skipWs_spaces, skipWs_render, hnext]
    · -- member lists
      intro kv kvs ind pad rest hfuel hdelim
      rw [klfuel] at hfuel
      cases kvs with
      | nil =>
        rw [renderMembers, List.nil_append, renderKV]
        simp only [List.cons_append, List.append_assoc]
        have hv := ihv kv.2 ind ('\n' :: (spaces pad ++ '}' :: rest))
          (by have := klfuel_pos ([] : List (PyStr × Json)); omega)
          (Or.inr (Or.inr ⟨_, rfl⟩))
        have hsb : skipWs ('}' :: rest) = '}' :: rest := skipWs_rbrace rest
        simp [parseMembers, headIs_cons, parseStringBody_escape, skipWs_colon,
          skipWs_space, skipWs_render, hv, skipWs_nl, skipWs_spaces, hsb]
      | cons w ws =>
        rw [renderMembers, renderKV]
        simp only [List.cons_append, List.append_assoc]
        have hv := ihv kv.2 ind
          (',' :: '\n' :: (spaces ind ++ (renderKV ind w ++ (renderMembers ind ws
            ++ '\n' :: (spaces pad ++ '}' :: rest)))))
          (by have := klfuel_pos (w :: ws); omega)
          (Or.inr (Or.inl ⟨_, rfl⟩))
        have hnext := ihm w ws ind pad rest
          (by have := jfuel_pos kv.2; omega) hdelim
        simp [parseMembers, headIs_cons, parseStringBody_escape, skipWs_colon,
          skipWs_space, skipWs_render, hv, skipWs_comma, skipWs_nl,
          skipWs_spaces, skipWs_renderKV, hnext]

/-! ## Enough fuel: the measure is bounded by the rendered length -/

theorem jfuel_le_render_length (N : Nat) :
    (∀ v ind, jfuel v ≤ N → jfuel v ≤ (render ind v).length)
    ∧ (∀ l ind, lfuel l ≤ N → lfuel l ≤ (renderItems ind l).length + 1)
    ∧ (∀ l ind, klfuel l ≤ N → klfuel l ≤ (renderMembers ind l).length + 1) := by
  induction N with
  | zero =>
    refine ⟨?_, ?_, ?_⟩
    · intro v ind hN
      have := jfuel_pos v
      omega
    · intro l ind hN
      have := lfuel_pos l
      omega
    · intro l ind hN
      have := klfuel_pos l
      omega
  | succ N ih =>
    obtain ⟨ihv, ihi, ihm⟩ := ih
    refine ⟨?_, ?_, ?_⟩
    · intro v ind hN
      cases v with
      | null => rw [render, jfuel]; simp [nullTok]
      | bool b =>
        cases b with
        | true => rw [render, jfuel]; simp [trueTok]
        | false => rw [render, jfuel]; simp [falseTok]
      | num n =>
        rw [render, jfuel, intChars]
        by_cases hn : n < 0
        · rw [if_pos hn]; simp
        · rw [if_neg hn]
          obtain ⟨k, t, hk, ht⟩ := natChars_head n.natAbs
          rw [ht]
          simp
      | str s => rw [render, jfuel]; simp
      | arr l =>
        cases l with
        | nil => rw [render, jfuel, lfuel]; simp
        | cons x xs =>
          have hx : jfuel x ≤ (render (ind + 2) x).length :=
            ihv x (ind + 2) (by rw [jfuel, lfuel] at hN; omega)
          have hxs : lfuel xs ≤ (renderItems (ind + 2) xs).length + 1 :=
            ihi xs (ind + 2) (by rw [jfuel, lfuel] at hN; omega)
          rw [render, jfuel, lfuel]
          simp only [List.length_cons, List.length_append, spaces,
            List.length_replicate, List.length_singleton]
          omega
      | obj l =>
        cases l with
        | nil => rw [render, jfuel, klfuel]; simp
        | cons kv kvs =>
          have hx : jfuel kv.2 ≤ (render (ind + 2) kv.2).length :=
            ihv kv.2 (ind + 2) (by rw [jfuel, klfuel] at hN; omega)
          have hxs : klfuel kvs ≤ (renderMembers (ind + 2) kvs).length + 1 :=
            ihm kvs (ind + 2) (by rw [jfuel, klfuel] at hN; omega)
          rw [render, jfuel, klfuel, renderKV]
          simp only [List.length_cons, List.length_append, spaces,
            List.length_replicate, List.length_singleton]
          omega
    · intro l ind hN
      cases l with
      | nil => rw [lfuel, renderItems]; simp
      | cons x xs =>
        have hx : jfuel x ≤ (render ind x).length :=
          ihv x ind (by rw [lfuel] at hN; omega)
        have hxs : lfuel xs ≤ (renderItems ind xs).length + 1 :=
          ihi xs ind (by rw [lfuel] at hN; have := jfuel_pos x; omega)
        rw [lfuel, renderItems]
        simp only [List.length_cons, List.length_append, spaces,
          List.length_replicate]
        omega
    · intro l ind hN
      cases l with
      | nil => rw [klfuel, renderMembers]; simp
      | cons kv kvs =>
        have hx : jfuel kv.2 ≤ (render ind kv.2).length :=
          ihv kv.2 ind (by rw [klfuel] at hN; omega)
        have hxs : klfuel kvs ≤ (renderMembers ind kvs).length + 1 :=
          ihm kvs ind (by rw [klfuel] at hN; have := jfuel_pos kv.2; omega)
        rw [klfuel, renderMembers, renderKV]
        simp only [List.length_cons, List.length_append, spaces,
          List.length_replicate]
        omega

/-- The parser is a left inverse of the serializer. -/
theorem loads_dumps (v : Json) : loads (dumps v) = some v := by
  unfold loads dumps
  rw [show skipWs (render 0 v) = render 0 v from by
    simpa using skipWs_render 0 v []]
  have hle : jfuel v ≤ (render 0 v).length :=
    (jfuel_le_render_length (jfuel v)).1 v 0 le_rfl
  have hround := (parse_render_round ((render 0 v).length + 1)).1 v 0 []
    (by omega) (Or.inl rfl)
  rw [List.append_nil] at hround
  rw [hround]
  simp [skipWs]

/-! ## C5: save/load round trip -/

/-- C5: for every JSON value (objects, arrays, integers, strings with
escapes, booleans, null, arbitrarily nested) and every name accepted by
save, loading the archive immediately after saving returns a value
deep-equal to the one saved. -/
theorem save_load_roundtrip (st : Store) (name : PyStr) (v : Json)
    (h : name ≠ []) :
    ∃ st2 msg, save_archive st ⟨v, some name⟩ = .ok (st2, msg)
      ∧ load_archive st2 name = .ok v := by
  refine ⟨_, _, save_archive_str st name v h, ?_⟩
  have hl := lookup_set_self st (sanitize_filename name ++ jsonExt) (dumps v)
  simp [load_archive, hl, loads_dumps]

/-- Witness for C5 with a nested concrete value (number, Unicode-free
string, object, null inside an array). -/
theorem save_load_roundtrip_witness :
    ∃ st2 msg, save_archive []
        ⟨Json.arr [Json.num 12, Json.str ['a'], Json.obj [(['k'], Json.null)]],
          some ['a']⟩ = .ok (st2, msg)
      ∧ load_archive st2 ['a']
        = .ok (Json.arr [Json.num 12, Json.str ['a'],
            Json.obj [(['k'], Json.null)]]) :=
  save_load_roundtrip [] ['a']
    (Json.arr [Json.num 12, Json.str ['a'], Json.obj [(['k'], Json.null)]])
    (by decide)
